import Mathlib

/-!
Verification of the loopback-next lifecycle/middleware ordering engine.

Shallow embedding of:
- `LifeCycleObserverRegistry` (core: lifecycle-registry), i.e. group
  classification (`getObserverGroup`), group partition and sort
  (`sortObserverBindingsByGroup`), group notification
  (`notifyObserverGroup`, `notifyGroups`, `start`, `stop`);
- `MiddlewareRegistry` (rest: middleware-registry), i.e. phase
  classification (`getMiddlewarePhase`), phase sort
  (`sortMiddlewareBindingsByPhase`) and router assembly
  (`createExpressRouter`).

Bindings are modelled by their key and tag map; the binding container is
modelled by the list of bindings it enumerates (registration order) and by
an outcome oracle giving, for each (event, binding) pair, the settle time
and result of resolving the binding and invoking the event method on it.
-/

namespace LB

/-- A JS tag map (string keys to string values); keys are unique in a JS
object, the lookup takes the first matching entry. -/
abbrev TagMap := List (String × String)

/-- Read `tagMap[k]`: `some v` when the key is present, `none` for
JS `undefined`. -/
def tagGet (m : TagMap) (k : String) : Option String :=
  match m.find? (fun p => p.1 == k) with
  | some p => some p.2
  | none => none

/-- JS truthiness of an optional boolean (`undefined` is falsy). -/
def jsTruthy (b : Option Bool) : Bool :=
  match b with
  | some v => v
  | none => false

/-- JS falsiness of an optional string: `undefined` and `''` are falsy. -/
def jsFalsyStr (s : Option String) : Bool :=
  match s with
  | none => true
  | some v => v == ""

/-- JS `s || ''` on an optional string: the string when truthy, else `''`
(note `some ""` also yields `""`, so this is the defaulting used at the end
of `getObserverGroup` and in `getMiddlewarePhase`). -/
def jsOrEmpty (s : Option String) : String :=
  match s with
  | some v => v
  | none => ""

/-- JS `Array.prototype.indexOf`: index of the first occurrence, `-1` when
absent. -/
def jsIndexOf (l : List String) (s : String) : Int :=
  match l with
  | [] => -1
  | x :: xs =>
    if x = s then 0
    else
      let r := jsIndexOf xs s
      if r = -1 then -1 else r + 1

/-- A registered binding, reduced to what the registries read: its key and
its tag map. -/
structure Binding where
  key : String
  tagMap : TagMap
deriving DecidableEq

namespace CoreTags

/-- `CoreTags.LIFE_CYCLE_OBSERVER_GROUP` from `keys.ts` (the file is not in
scope; only the literal tag-key value matters here). -/
def LIFE_CYCLE_OBSERVER_GROUP : String := "lifeCycleObserverGroup"

end CoreTags

/-- `LifeCycleObserverOptions`: `groupsByOrder: string[]` and the optional
`parallel?: boolean`. -/
structure LifeCycleObserverOptions where
  groupsByOrder : List String
  parallel : Option Bool
deriving DecidableEq

/-- `LifeCycleObserverGroup`: a group name and the bindings in the group. -/
structure LifeCycleObserverGroup where
  group : String
  bindings : List Binding
deriving DecidableEq

/-- Constructor default of `LifeCycleObserverRegistry.options`:
`{parallel: true, groupsByOrder: ['server']}`. -/
def defaultLifeCycleObserverOptions : LifeCycleObserverOptions :=
  ⟨["server"], some true⟩

/-- `getObserverGroup` (lifecycle-registry lines 99-115): explicit
`lifeCycleObserverGroup` tag when truthy, else the first `groupsByOrder`
name appearing as a same-key/same-value tag, else `''`. -/
def getObserverGroup (options : LifeCycleObserverOptions) (binding : Binding) :
    String :=
  let group := tagGet binding.tagMap CoreTags.LIFE_CYCLE_OBSERVER_GROUP
  let group :=
    if jsFalsyStr group then
      options.groupsByOrder.find? (fun g => tagGet binding.tagMap g == some g)
    else group
  jsOrEmpty group

/-- Append a key to the key list unless already present: the effect on the
key order of `groupMap.set` for a fresh group (JS `Map` iterates keys in
insertion order). -/
def insertGroupKey (acc : List String) (k : String) : List String :=
  if k ∈ acc then acc else acc ++ [k]

/-- First-occurrence order of the classification keys of `bindings`: the
iteration order of the JS `Map` built by the partition loop. -/
def groupKeys (classify : Binding → String) (bindings : List Binding) :
    List String :=
  bindings.foldl (fun acc b => insertGroupKey acc (classify b)) []

/-- The partition loop of `sortObserverBindingsByGroup` /
`sortMiddlewareBindingsByPhase`: each key of the map, in insertion order,
with the bindings classified to it in input order (the loop appends each
binding to the list of its own group, so a group holds exactly the
classified-to-it sublist of the input). -/
def partitionByGroup (classify : Binding → String) (bindings : List Binding) :
    List (String × List Binding) :=
  (groupKeys classify bindings).map
    (fun k => (k, bindings.filter (fun b => classify b == k)))

/-- The group comparator (lifecycle-registry lines 146-158 and
middleware-registry lines 112-124): `indexOf` difference when either name
occurs in the configured order, else alphabetical. -/
def groupCompare (order : List String) (g1 g2 : String) : Int :=
  let i1 := jsIndexOf order g1
  let i2 := jsIndexOf order g2
  if i1 ≠ -1 ∨ i2 ≠ -1 then i1 - i2
  else if g1 < g2 then -1 else if g2 < g1 then 1 else 0

/-- Nonpositive comparator result: the order realised by the JS sort. -/
def GroupLe (order : List String) (g1 g2 : String) : Prop :=
  groupCompare order g1 g2 ≤ 0

instance (order : List String) : DecidableRel (GroupLe order) :=
  fun a b => inferInstanceAs (Decidable (groupCompare order a b ≤ 0))

/-- Comparator lifted to observer groups (compares the group names). -/
def ObsGroupLe (order : List String) (a b : LifeCycleObserverGroup) : Prop :=
  GroupLe order a.group b.group

instance (order : List String) : DecidableRel (ObsGroupLe order) :=
  fun a b => inferInstanceAs (Decidable (GroupLe order a.group b.group))

/-- `sortObserverBindingsByGroup` (lifecycle-registry lines 119-158):
partition the bindings into groups, then sort the groups with the
comparator. The comparator is a strict total order on the distinct group
names, so the JS `Array.prototype.sort` result is the unique sorted
permutation, realised here by `List.insertionSort`. -/
def sortObserverBindingsByGroup (options : LifeCycleObserverOptions)
    (bindings : List Binding) : List LifeCycleObserverGroup :=
  let groups := (partitionByGroup (getObserverGroup options) bindings).map
    (fun p => LifeCycleObserverGroup.mk p.1 p.2)
  List.insertionSort (ObsGroupLe options.groupsByOrder) groups

/-- `MiddlewareOptions`: `phasesByOrder: string[]` and the optional
`parallel?: boolean`. -/
structure MiddlewareOptions where
  phasesByOrder : List String
  parallel : Option Bool
deriving DecidableEq

/-- `MiddlewarePhase`: a phase name and the bindings in the phase. -/
structure MiddlewarePhase where
  phase : String
  bindings : List Binding
deriving DecidableEq

/-- Constructor default of `MiddlewareRegistry.options`:
`{parallel: false, phasesByOrder: []}`. -/
def defaultMiddlewareOptions : MiddlewareOptions :=
  ⟨[], some false⟩

/-- `getMiddlewarePhase` (middleware-registry lines 71-81):
`binding.tagMap.phase || ''`. -/
def getMiddlewarePhase (binding : Binding) : String :=
  jsOrEmpty (tagGet binding.tagMap "phase")

/-- Comparator lifted to middleware phases (compares the phase names). -/
def PhaseLe (order : List String) (a b : MiddlewarePhase) : Prop :=
  GroupLe order a.phase b.phase

instance (order : List String) : DecidableRel (PhaseLe order) :=
  fun a b => inferInstanceAs (Decidable (GroupLe order a.phase b.phase))

/-- `sortMiddlewareBindingsByPhase` (middleware-registry lines 89-125):
the same partition-then-sort algorithm as
`sortObserverBindingsByGroup`, with `getMiddlewarePhase` as the classifier
and `phasesByOrder` as the configured order. -/
def sortMiddlewareBindingsByPhase (options : MiddlewareOptions)
    (bindings : List Binding) : List MiddlewarePhase :=
  let phases := (partitionByGroup getMiddlewarePhase bindings).map
    (fun p => MiddlewarePhase.mk p.1 p.2)
  List.insertionSort (PhaseLe options.phasesByOrder) phases

/-- Lifecycle event names (`keyof LifeCycleObserver`). -/
abbrev EventName := String

/-- A settled asynchronous task: the (logical) time at which it settles and
its result (`ok` for fulfilled, `error` for rejected). -/
structure Settled (ε : Type) where
  time : Nat
  result : Except ε Unit

/-- Whether a settled task was rejected. -/
def isRejected {ε : Type} (s : Settled ε) : Bool :=
  match s.result with
  | Except.error _ => true
  | Except.ok _ => false

instance {ε : Type} [DecidableEq ε] : DecidableEq (Except ε Unit) :=
  fun a b =>
    match a, b with
    | Except.ok (), Except.ok () => isTrue rfl
    | Except.error e1, Except.error e2 =>
      if h : e1 = e2 then isTrue (congrArg Except.error h)
      else isFalse (fun hc => h (by injection hc))
    | Except.ok (), Except.error _ => isFalse (fun hc => Except.noConfusion hc)
    | Except.error _, Except.ok () => isFalse (fun hc => Except.noConfusion hc)

/-- The earliest-settling task of a list, ties broken towards the front of
the list (simultaneous settlements run their reactions in subscription
order). -/
def firstSettled {ε : Type} : List (Settled ε) → Option (Settled ε)
  | [] => none
  | x :: xs =>
    match firstSettled xs with
    | none => some x
    | some y => if y.time < x.time then some y else some x

/-- ECMAScript `Promise.all` over settled tasks: if every task fulfills,
the combined promise fulfills once the last one has (the maximum settle
time); if any task rejects, the combined promise rejects with the error of
the earliest rejection, at that rejection's settle time — it does not wait
for the remaining tasks. -/
def promiseAll {ε : Type} (tasks : List (Settled ε)) : Settled ε :=
  match firstSettled (tasks.filter isRejected) with
  | some s => s
  | none => ⟨(tasks.map (fun t => t.time)).foldl max 0, Except.ok ()⟩

/-- An outcome oracle for the binding container: for an event name and a
binding, the settled task of `ctx.get(binding.key)` followed by
`invokeObserver(observer, event)` — a resolution failure or a rejecting
method is `error`, a fulfilled or absent method is `ok`. -/
abbrev Outcome (ε : Type) := EventName → Binding → Settled ε

/-- The sequential branch of `notifyObserverGroup`: each member is awaited
in registration order, a rejection propagates at once. -/
def seqNotify {ε : Type} (outcome : Outcome ε) (event : EventName) :
    List Binding → Except ε Unit
  | [] => Except.ok ()
  | b :: bs =>
    match (outcome event b).result with
    | Except.ok _ => seqNotify outcome event bs
    | Except.error e => Except.error e

/-- The parallel branch of `notifyObserverGroup` (lines 175-193 with
`options.parallel` truthy) as a settled task: every member task is pushed
into `notifiers` and the group awaits `Promise.all(notifiers)`. -/
def notifyObserverGroupSettled {ε : Type} (outcome : Outcome ε)
    (group : LifeCycleObserverGroup) (event : EventName) : Settled ε :=
  promiseAll (group.bindings.map (fun b => outcome event b))

/-- `notifyObserverGroup` (lifecycle-registry lines 166-199): parallel
fan-out with `Promise.all` join when `options.parallel` is truthy, else
one-at-a-time awaiting. -/
def notifyObserverGroup {ε : Type} (options : LifeCycleObserverOptions)
    (outcome : Outcome ε) (group : LifeCycleObserverGroup)
    (event : EventName) : Except ε Unit :=
  if jsTruthy options.parallel then
    (notifyObserverGroupSettled outcome group event).result
  else
    seqNotify outcome event group.bindings

/-- The inner loop of `notifyGroups` for one event: notify each group in
order, recording the `(event, group-name)` pairs notified; a rejection
aborts the loop and propagates. -/
def notifyGroupsForEvent {ε : Type}
    (notify : EventName → LifeCycleObserverGroup → Except ε Unit)
    (event : EventName) :
    List LifeCycleObserverGroup → List (EventName × String) × Option ε
  | [] => ([], none)
  | g :: gs =>
    match notify event g with
    | Except.ok _ =>
      let r := notifyGroupsForEvent notify event gs
      ((event, g.group) :: r.1, r.2)
    | Except.error e => ([(event, g.group)], some e)

/-- `notifyGroups` (lifecycle-registry lines 220-231): for each event in
order, notify every group in order; a rejection propagates and aborts both
loops. The trace of `(event, group-name)` notifications is returned with
the propagated error, if any. -/
def notifyGroups {ε : Type}
    (notify : EventName → LifeCycleObserverGroup → Except ε Unit) :
    List EventName → List LifeCycleObserverGroup →
    List (EventName × String) × Option ε
  | [], _ => ([], none)
  | e :: es, gs =>
    let r1 := notifyGroupsForEvent notify e gs
    match r1.2 with
    | some err => (r1.1, some err)
    | none =>
      let r2 := notifyGroups notify es gs
      (r1.1 ++ r2.1, r2.2)

/-- The events `start()` passes to `notifyGroups`. -/
def startEvents : List EventName := ["preStart", "start", "postStart"]

/-- The events `stop()` passes to `notifyGroups`. -/
def stopEvents : List EventName := ["preStop", "stop", "postStop"]

/-- `start()` (lifecycle-registry lines 238-242): compute the ordered
groups, then notify them of `preStart`, `start`, `postStart`. -/
def start {ε : Type} (options : LifeCycleObserverOptions)
    (outcome : Outcome ε) (bindings : List Binding) :
    List (EventName × String) × Option ε :=
  notifyGroups (fun e g => notifyObserverGroup options outcome g e)
    startEvents (sortObserverBindingsByGroup options bindings)

/-- `stop()` (lifecycle-registry lines 249-254): compute the ordered groups
freshly, reverse them, then notify them of `preStop`, `stop`, `postStop`. -/
def stop {ε : Type} (options : LifeCycleObserverOptions)
    (outcome : Outcome ε) (bindings : List Binding) :
    List (EventName × String) × Option ε :=
  notifyGroups (fun e g => notifyObserverGroup options outcome g e)
    stopEvents ((sortObserverBindingsByGroup options bindings).reverse)

/-- The full `(event, group-name)` itinerary of a run with no failure. -/
def itinerary (events : List EventName)
    (groups : List LifeCycleObserverGroup) : List (EventName × String) :=
  events.flatMap (fun e => groups.map (fun g => (e, g.group)))

/-- The `path` tag of a middleware binding, when truthy
(`if (binding.tagMap && binding.tagMap.path)`); a missing or empty path
mounts the middleware unscoped. -/
def pathTag (binding : Binding) : Option String :=
  match tagGet binding.tagMap "path" with
  | some p => if p == "" then none else some p
  | none => none

/-- JS `bindings.indexOf(binding)`. -/
def jsIndexOfBinding (bindings : List Binding) (b : Binding) : Int :=
  match bindings with
  | [] => -1
  | x :: xs =>
    if x = b then 0
    else
      let r := jsIndexOfBinding xs b
      if r = -1 then -1 else r + 1

/-- One phase router: the phase name and its mounts, each a pair of the
optional path scope and the index into the resolved middleware array. -/
structure PhaseRouter where
  phase : String
  mounts : List (Option String × Int)
deriving DecidableEq

/-- `createExpressRouter` (middleware-registry lines 130-160), reduced to
the order-and-scoping structure it assembles: one child router per sorted
phase in phase order; inside a phase, one `use` per member binding in the
partition order, path-scoped exactly when the binding carries a truthy
`path` tag, mounting the middleware value at `bindings.indexOf(binding)`. -/
def createExpressRouter (options : MiddlewareOptions)
    (bindings : List Binding) : List PhaseRouter :=
  let phases := sortMiddlewareBindingsByPhase options bindings
  phases.map (fun ph =>
    PhaseRouter.mk ph.phase
      (ph.bindings.map (fun b => (pathTag b, jsIndexOfBinding bindings b))))

/-- The relative order the sorted group names actually satisfy: a later
name is never preceded by a name of larger priority index; a name present
in the order list is never followed by an absent one is FALSE here — the
realised law is: once a present name occurs, every later name is present
with a strictly larger index, and two absent names occur alphabetically
(absent names all precede present ones). -/
@[reducible] def codeOrderRel (order : List String) (g1 g2 : String) : Prop :=
  (g1 ∈ order → g2 ∈ order ∧ jsIndexOf order g1 < jsIndexOf order g2) ∧
  (g1 ∉ order → g2 ∉ order → g1 < g2)

/-- The ordering property asserted by the claim: names present in the
order list keep their relative index order, absent names come after all
present ones, absent names are alphabetical among themselves. -/
@[reducible] def claimC1Order (order : List String) (names : List String) : Prop :=
  names.Pairwise (fun g1 g2 =>
    (g1 ∈ order → g2 ∈ order → jsIndexOf order g1 ≤ jsIndexOf order g2) ∧
    (g1 ∉ order → g2 ∉ order → g1 ≤ g2) ∧
    ¬(g1 ∉ order ∧ g2 ∈ order))

/-- Modelled from the spec words for the classifier claim: return the
explicit group-name tag value whenever the tag map contains the tag (with
no truthiness proviso), else the first known group present as a marker
tag, else the empty string. Compared against `getObserverGroup`. -/
def claimClassify (options : LifeCycleObserverOptions) (binding : Binding) :
    String :=
  match tagGet binding.tagMap CoreTags.LIFE_CYCLE_OBSERVER_GROUP with
  | some g => g
  | none =>
    match options.groupsByOrder.find?
        (fun g => tagGet binding.tagMap g == some g) with
    | some g => g
    | none => ""

/-- Every member invocation of every event of a run fulfills. -/
@[reducible] def allMembersOk {ε : Type} (outcome : Outcome ε) (events : List EventName)
    (groups : List LifeCycleObserverGroup) : Prop :=
  ∀ e ∈ events, ∀ g ∈ groups, ∀ b ∈ g.bindings,
    (outcome e b).result = Except.ok ()

/-- Concrete observer binding in group `db` (spec §8 scenario, handle A). -/
def cxA : Binding := ⟨"binding-a", [("lifeCycleObserverGroup", "db")]⟩

/-- Concrete observer binding in group `server` (handle B). -/
def cxB : Binding := ⟨"binding-b", [("lifeCycleObserverGroup", "server")]⟩

/-- Concrete untagged observer binding (handle C). -/
def cxC : Binding := ⟨"binding-c", []⟩

/-- Concrete options with priority list `['db', 'server']`. -/
def cxOptions : LifeCycleObserverOptions := ⟨["db", "server"], some true⟩

/-- A binding whose explicit group tag is present but empty, next to a
`server` marker tag. -/
def cxEmptyTagged : Binding :=
  ⟨"observer-x", [("lifeCycleObserverGroup", ""), ("server", "server")]⟩

/-- A member task that rejects quickly. -/
def cxFastFail : Binding := ⟨"fast-failing", []⟩

/-- A member task that fulfills slowly. -/
def cxSlowOk : Binding := ⟨"slow-ok", []⟩

/-- A group holding the fast-failing and the slow-fulfilling member. -/
def cxGroup : LifeCycleObserverGroup := ⟨"g", [cxFastFail, cxSlowOk]⟩

/-- Outcome oracle: the fast member rejects at time 1, the slow member
fulfills at time 5. -/
def cxMixedOutcome : Outcome String := fun _ b =>
  if b.key == "fast-failing" then ⟨1, Except.error "boom"⟩
  else ⟨5, Except.ok ()⟩

/-- Outcome oracle that always fulfills at time 0. -/
def cxOkOutcome : Outcome String := fun _ _ => ⟨0, Except.ok ()⟩

/-- Outcome oracle that rejects exactly the `start` event of handle B. -/
def cxFailBOutcome : Outcome String := fun e b =>
  if b.key == "binding-b" && e == "start" then ⟨0, Except.error "crash"⟩
  else ⟨0, Except.ok ()⟩

/-- A middleware binding carrying only an `auth` marker tag (no `phase`
tag). -/
def cxMarkerOnly : Binding := ⟨"m-auth", [("auth", "auth")]⟩

/-- Observer options whose group list is the phase list `['auth']`. -/
def cxObsAuth : LifeCycleObserverOptions := ⟨["auth"], some true⟩

/-- Middleware options with phase list `['auth']`. -/
def cxMwAuth : MiddlewareOptions := ⟨["auth"], some false⟩

/-- Comparator on plain (name, members) pairs, for comparing the two
sorters through their common shape. -/
def PairGroupLe (order : List String) (a b : String × List Binding) : Prop :=
  GroupLe order a.1 b.1

instance (order : List String) : DecidableRel (PairGroupLe order) :=
  fun a b => inferInstanceAs (Decidable (GroupLe order a.1 b.1))

/-- A binding tagged with the same name as lifecycle group and as
middleware phase. -/
def cxBoth : Binding :=
  ⟨"w", [("phase", "log"), ("lifeCycleObserverGroup", "log")]⟩

/-- Observer options with group list `['log']`. -/
def cxObsLog : LifeCycleObserverOptions := ⟨["log"], some true⟩

/-- Middleware options with phase list `['log']`. -/
def cxMwLog : MiddlewareOptions := ⟨["log"], some false⟩

theorem jsIndexOf_ge (l : List String) (s : String) : -1 ≤ jsIndexOf l s := by
  induction l with
  | nil => simp [jsIndexOf]
  | cons x xs ih =>
    simp only [jsIndexOf]
    split
    · omega
    · split <;> omega

theorem jsIndexOf_eq_neg_one_iff (l : List String) (s : String) :
    jsIndexOf l s = -1 ↔ s ∉ l := by
  induction l with
  | nil => simp [jsIndexOf]
  | cons x xs ih =>
    simp only [jsIndexOf, List.mem_cons]
    by_cases hx : x = s
    · simp [hx]
    · rw [if_neg hx]
      by_cases hr : jsIndexOf xs s = -1
      · simp only [if_pos hr]
        have hns : s ∉ xs := ih.mp hr
        constructor
        · intro _ hmem
          rcases hmem with h | h
          · exact hx h.symm
          · exact hns h
        · intro _
          trivial
      · rw [if_neg hr]
        have hge := jsIndexOf_ge xs s
        have hmem : s ∈ xs := by
          by_contra hns
          exact hr (ih.mpr hns)
        constructor
        · intro h; omega
        · intro h; exact absurd (Or.inr hmem) h

theorem jsIndexOf_nonneg_of_mem {l : List String} {s : String} (h : s ∈ l) :
    0 ≤ jsIndexOf l s := by
  have hge := jsIndexOf_ge l s
  have hne : jsIndexOf l s ≠ -1 := fun he =>
    ((jsIndexOf_eq_neg_one_iff l s).mp he) h
  omega

theorem jsIndexOf_ne_neg_one_of_mem {l : List String} {s : String}
    (h : s ∈ l) : jsIndexOf l s ≠ -1 := fun he =>
  ((jsIndexOf_eq_neg_one_iff l s).mp he) h

theorem jsIndexOf_eq_neg_one_of_not_mem {l : List String} {s : String}
    (h : s ∉ l) : jsIndexOf l s = -1 :=
  (jsIndexOf_eq_neg_one_iff l s).mpr h

theorem jsIndexOf_inj {l : List String} {s1 s2 : String} (h1 : s1 ∈ l)
    (h2 : s2 ∈ l) (he : jsIndexOf l s1 = jsIndexOf l s2) : s1 = s2 := by
  induction l with
  | nil => cases h1
  | cons x xs ih =>
    simp only [jsIndexOf] at he
    by_cases hx1 : x = s1 <;> by_cases hx2 : x = s2
    · exact hx1 ▸ hx2
    · rw [if_pos hx1, if_neg hx2] at he
      have hm2 : s2 ∈ xs := by
        rcases List.mem_cons.mp h2 with h | h
        · exact absurd h.symm hx2
        · exact h
      have hge := jsIndexOf_nonneg_of_mem hm2
      have hne := jsIndexOf_ne_neg_one_of_mem hm2
      rw [if_neg hne] at he
      omega
    · rw [if_neg hx1, if_pos hx2] at he
      have hm1 : s1 ∈ xs := by
        rcases List.mem_cons.mp h1 with h | h
        · exact absurd h.symm hx1
        · exact h
      have hge := jsIndexOf_nonneg_of_mem hm1
      have hne := jsIndexOf_ne_neg_one_of_mem hm1
      rw [if_neg hne] at he
      omega
    · have hm1 : s1 ∈ xs := by
        rcases List.mem_cons.mp h1 with h | h
        · exact absurd h.symm hx1
        · exact h
      have hm2 : s2 ∈ xs := by
        rcases List.mem_cons.mp h2 with h | h
        · exact absurd h.symm hx2
        · exact h
      rw [if_neg hx1, if_neg hx2] at he
      rw [if_neg (jsIndexOf_ne_neg_one_of_mem hm1),
        if_neg (jsIndexOf_ne_neg_one_of_mem hm2)] at he
      exact ih hm1 hm2 (by omega)

theorem groupLe_iff_of_present {order : List String} {g1 g2 : String}
    (h1 : g1 ∈ order) (_h2 : g2 ∈ order) :
    GroupLe order g1 g2 ↔ jsIndexOf order g1 ≤ jsIndexOf order g2 := by
  simp only [GroupLe, groupCompare]
  rw [if_pos (Or.inl (jsIndexOf_ne_neg_one_of_mem h1))]
  omega

theorem groupLe_of_absent_present {order : List String} {g1 g2 : String}
    (h1 : g1 ∉ order) (h2 : g2 ∈ order) : GroupLe order g1 g2 := by
  simp only [GroupLe, groupCompare]
  rw [if_pos (Or.inr (jsIndexOf_ne_neg_one_of_mem h2))]
  have he1 := jsIndexOf_eq_neg_one_of_not_mem h1
  have hge2 := jsIndexOf_nonneg_of_mem h2
  omega

theorem not_groupLe_of_present_absent {order : List String} {g1 g2 : String}
    (h1 : g1 ∈ order) (h2 : g2 ∉ order) : ¬ GroupLe order g1 g2 := by
  simp only [GroupLe, groupCompare]
  rw [if_pos (Or.inl (jsIndexOf_ne_neg_one_of_mem h1))]
  have he2 := jsIndexOf_eq_neg_one_of_not_mem h2
  have hge1 := jsIndexOf_nonneg_of_mem h1
  omega

theorem groupLe_iff_of_absent {order : List String} {g1 g2 : String}
    (h1 : g1 ∉ order) (h2 : g2 ∉ order) :
    GroupLe order g1 g2 ↔ ¬ g2 < g1 := by
  simp only [GroupLe, groupCompare]
  rw [if_neg (by
    push_neg
    exact ⟨jsIndexOf_eq_neg_one_of_not_mem h1,
      jsIndexOf_eq_neg_one_of_not_mem h2⟩)]
  rcases lt_trichotomy g1 g2 with hlt | heq | hgt
  · simp [hlt, asymm hlt]
  · simp [heq, lt_irrefl]
  · simp [hgt, not_lt_of_gt hgt, not_lt_of_gt hgt]

theorem groupLe_total (order : List String) (g1 g2 : String) :
    GroupLe order g1 g2 ∨ GroupLe order g2 g1 := by
  by_cases h1 : g1 ∈ order <;> by_cases h2 : g2 ∈ order
  · rcases Int.le_total (jsIndexOf order g1) (jsIndexOf order g2) with h | h
    · exact Or.inl ((groupLe_iff_of_present h1 h2).mpr h)
    · exact Or.inr ((groupLe_iff_of_present h2 h1).mpr h)
  · exact Or.inr (groupLe_of_absent_present h2 h1)
  · exact Or.inl (groupLe_of_absent_present h1 h2)
  · rcases le_total g1 g2 with h | h
    · exact Or.inl ((groupLe_iff_of_absent h1 h2).mpr (not_lt_of_ge h))
    · exact Or.inr ((groupLe_iff_of_absent h2 h1).mpr (not_lt_of_ge h))

theorem groupLe_trans {order : List String} {g1 g2 g3 : String}
    (h12 : GroupLe order g1 g2) (h23 : GroupLe order g2 g3) :
    GroupLe order g1 g3 := by
  by_cases m1 : g1 ∈ order <;> by_cases m2 : g2 ∈ order <;>
    by_cases m3 : g3 ∈ order
  · exact (groupLe_iff_of_present m1 m3).mpr
      (le_trans ((groupLe_iff_of_present m1 m2).mp h12)
        ((groupLe_iff_of_present m2 m3).mp h23))
  · exact absurd h23 (not_groupLe_of_present_absent m2 m3)
  · exact absurd h12 (not_groupLe_of_present_absent m1 m2)
  · exact absurd h12 (not_groupLe_of_present_absent m1 m2)
  · exact groupLe_of_absent_present m1 m3
  · exact absurd h23 (not_groupLe_of_present_absent m2 m3)
  · exact groupLe_of_absent_present m1 m3
  · have hlt12 := (groupLe_iff_of_absent m1 m2).mp h12
    have hlt23 := (groupLe_iff_of_absent m2 m3).mp h23
    exact (groupLe_iff_of_absent m1 m3).mpr
      (not_lt_of_ge (le_trans (le_of_not_lt hlt12) (le_of_not_lt hlt23)))

instance (order : List String) :
    IsTotal LifeCycleObserverGroup (ObsGroupLe order) :=
  ⟨fun a b => groupLe_total order a.group b.group⟩

instance (order : List String) :
    IsTrans LifeCycleObserverGroup (ObsGroupLe order) :=
  ⟨fun _ _ _ h12 h23 => groupLe_trans h12 h23⟩

instance (order : List String) : IsTotal MiddlewarePhase (PhaseLe order) :=
  ⟨fun a b => groupLe_total order a.phase b.phase⟩

instance (order : List String) : IsTrans MiddlewarePhase (PhaseLe order) :=
  ⟨fun _ _ _ h12 h23 => groupLe_trans h12 h23⟩

theorem insertGroupKey_nodup {acc : List String} {k : String}
    (h : acc.Nodup) : (insertGroupKey acc k).Nodup := by
  unfold insertGroupKey
  split
  · exact h
  · rename_i hk
    rw [List.nodup_append]
    exact ⟨h, List.nodup_singleton k,
      fun a ha hb => hk ((List.mem_singleton.mp hb) ▸ ha)⟩

theorem mem_insertGroupKey {acc : List String} {k x : String} :
    x ∈ insertGroupKey acc k ↔ x ∈ acc ∨ x = k := by
  unfold insertGroupKey
  split
  · rename_i hk
    exact ⟨Or.inl, fun h => h.elim id (fun hx => hx ▸ hk)⟩
  · simp [List.mem_append]

theorem groupKeys_foldl_nodup (classify : Binding → String)
    (bindings : List Binding) :
    ∀ acc : List String, acc.Nodup →
      (bindings.foldl (fun a b => insertGroupKey a (classify b)) acc).Nodup := by
  induction bindings with
  | nil => intro acc h; exact h
  | cons b bs ih =>
    intro acc h
    exact ih _ (insertGroupKey_nodup h)

theorem groupKeys_nodup (classify : Binding → String)
    (bindings : List Binding) : (groupKeys classify bindings).Nodup :=
  groupKeys_foldl_nodup classify bindings [] List.nodup_nil

theorem mem_groupKeys_foldl (classify : Binding → String)
    (bindings : List Binding) :
    ∀ (acc : List String) (x : String),
      x ∈ bindings.foldl (fun a b => insertGroupKey a (classify b)) acc ↔
        x ∈ acc ∨ ∃ b ∈ bindings, classify b = x := by
  induction bindings with
  | nil => intro acc x; simp
  | cons b bs ih =>
    intro acc x
    rw [List.foldl_cons, ih, mem_insertGroupKey]
    constructor
    · rintro ((h | h) | ⟨b2, hb2, hc⟩)
      · exact Or.inl h
      · exact Or.inr ⟨b, List.mem_cons_self b bs, h.symm⟩
      · exact Or.inr ⟨b2, List.mem_cons_of_mem b hb2, hc⟩
    · rintro (h | ⟨b2, hb2, hc⟩)
      · exact Or.inl (Or.inl h)
      · rcases List.mem_cons.mp hb2 with he | he
        · exact Or.inl (Or.inr (he ▸ hc.symm))
        · exact Or.inr ⟨b2, he, hc⟩

theorem mem_groupKeys {classify : Binding → String}
    {bindings : List Binding} {x : String} :
    x ∈ groupKeys classify bindings ↔ ∃ b ∈ bindings, classify b = x := by
  rw [groupKeys, mem_groupKeys_foldl]
  simp

theorem partitionByGroup_fst (classify : Binding → String)
    (bindings : List Binding) :
    (partitionByGroup classify bindings).map Prod.fst =
      groupKeys classify bindings := by
  rw [partitionByGroup, List.map_map]
  have hcomp :
      (Prod.fst ∘ fun k => (k, bindings.filter (fun b => classify b == k))) =
        id := rfl
  rw [hcomp, List.map_id]

theorem snd_of_mem_partitionByGroup {classify : Binding → String}
    {bindings : List Binding} {p : String × List Binding}
    (h : p ∈ partitionByGroup classify bindings) :
    p.2 = bindings.filter (fun b => classify b == p.1) := by
  rw [partitionByGroup] at h
  rcases List.mem_map.mp h with ⟨k, _, hk⟩
  rw [← hk]

theorem obsGroups_names (options : LifeCycleObserverOptions)
    (bindings : List Binding) :
    (((partitionByGroup (getObserverGroup options) bindings).map
        (fun p => LifeCycleObserverGroup.mk p.1 p.2)).map
      (fun g => g.group)) =
      groupKeys (getObserverGroup options) bindings := by
  rw [List.map_map]
  exact partitionByGroup_fst (getObserverGroup options) bindings

theorem sortObs_perm (options : LifeCycleObserverOptions)
    (bindings : List Binding) :
    (sortObserverBindingsByGroup options bindings).Perm
      ((partitionByGroup (getObserverGroup options) bindings).map
        (fun p => LifeCycleObserverGroup.mk p.1 p.2)) :=
  List.perm_insertionSort _ _

theorem sortObs_names_perm (options : LifeCycleObserverOptions)
    (bindings : List Binding) :
    ((sortObserverBindingsByGroup options bindings).map
        (fun g => g.group)).Perm
      (groupKeys (getObserverGroup options) bindings) := by
  rw [← obsGroups_names options bindings]
  exact (sortObs_perm options bindings).map (fun g => g.group)

theorem sortObs_names_nodup (options : LifeCycleObserverOptions)
    (bindings : List Binding) :
    ((sortObserverBindingsByGroup options bindings).map
      (fun g => g.group)).Nodup :=
  (sortObs_names_perm options bindings).nodup_iff.mpr
    (groupKeys_nodup (getObserverGroup options) bindings)

theorem sortObs_sorted (options : LifeCycleObserverOptions)
    (bindings : List Binding) :
    (sortObserverBindingsByGroup options bindings).Sorted
      (ObsGroupLe options.groupsByOrder) :=
  List.sorted_insertionSort _ _

theorem sortObs_mem_iff {options : LifeCycleObserverOptions}
    {bindings : List Binding} {g : LifeCycleObserverGroup} :
    g ∈ sortObserverBindingsByGroup options bindings ↔
      g ∈ (partitionByGroup (getObserverGroup options) bindings).map
        (fun p => LifeCycleObserverGroup.mk p.1 p.2) :=
  List.mem_insertionSort _

theorem sortObs_bindings_char {options : LifeCycleObserverOptions}
    {bindings : List Binding} {g : LifeCycleObserverGroup}
    (h : g ∈ sortObserverBindingsByGroup options bindings) :
    g.bindings =
      bindings.filter (fun b => getObserverGroup options b == g.group) := by
  rcases List.mem_map.mp (sortObs_mem_iff.mp h) with ⟨p, hp, hpg⟩
  have h2 := snd_of_mem_partitionByGroup hp
  rw [← hpg]
  exact h2

theorem sortObs_group_mem_keys {options : LifeCycleObserverOptions}
    {bindings : List Binding} {g : LifeCycleObserverGroup}
    (h : g ∈ sortObserverBindingsByGroup options bindings) :
    g.group ∈ groupKeys (getObserverGroup options) bindings := by
  rcases List.mem_map.mp (sortObs_mem_iff.mp h) with ⟨p, hp, hpg⟩
  have : p.1 ∈ (partitionByGroup (getObserverGroup options) bindings).map
      Prod.fst := List.mem_map_of_mem Prod.fst hp
  rw [partitionByGroup_fst] at this
  rw [← hpg]
  exact this

theorem mwPhases_names (bindings : List Binding) :
    (((partitionByGroup getMiddlewarePhase bindings).map
        (fun p => MiddlewarePhase.mk p.1 p.2)).map (fun g => g.phase)) =
      groupKeys getMiddlewarePhase bindings := by
  rw [List.map_map]
  exact partitionByGroup_fst getMiddlewarePhase bindings

theorem sortMw_perm (options : MiddlewareOptions) (bindings : List Binding) :
    (sortMiddlewareBindingsByPhase options bindings).Perm
      ((partitionByGroup getMiddlewarePhase bindings).map
        (fun p => MiddlewarePhase.mk p.1 p.2)) :=
  List.perm_insertionSort _ _

theorem sortMw_names_perm (options : MiddlewareOptions)
    (bindings : List Binding) :
    ((sortMiddlewareBindingsByPhase options bindings).map
        (fun g => g.phase)).Perm (groupKeys getMiddlewarePhase bindings) := by
  rw [← mwPhases_names bindings]
  exact (sortMw_perm options bindings).map (fun g => g.phase)

theorem sortMw_names_nodup (options : MiddlewareOptions)
    (bindings : List Binding) :
    ((sortMiddlewareBindingsByPhase options bindings).map
      (fun g => g.phase)).Nodup :=
  (sortMw_names_perm options bindings).nodup_iff.mpr
    (groupKeys_nodup getMiddlewarePhase bindings)

theorem sortMw_sorted (options : MiddlewareOptions)
    (bindings : List Binding) :
    (sortMiddlewareBindingsByPhase options bindings).Sorted
      (PhaseLe options.phasesByOrder) :=
  List.sorted_insertionSort _ _

theorem sortMw_mem_iff {options : MiddlewareOptions}
    {bindings : List Binding} {g : MiddlewarePhase} :
    g ∈ sortMiddlewareBindingsByPhase options bindings ↔
      g ∈ (partitionByGroup getMiddlewarePhase bindings).map
        (fun p => MiddlewarePhase.mk p.1 p.2) :=
  List.mem_insertionSort _

theorem sortMw_bindings_char {options : MiddlewareOptions}
    {bindings : List Binding} {g : MiddlewarePhase}
    (h : g ∈ sortMiddlewareBindingsByPhase options bindings) :
    g.bindings =
      bindings.filter (fun b => getMiddlewarePhase b == g.phase) := by
  rcases List.mem_map.mp (sortMw_mem_iff.mp h) with ⟨p, hp, hpg⟩
  have h2 := snd_of_mem_partitionByGroup hp
  rw [← hpg]
  exact h2

theorem sorted_names_pairwise_codeOrderRel {order : List String}
    {names : List String} (hs : names.Pairwise (GroupLe order))
    (hn : names.Nodup) : names.Pairwise (codeOrderRel order) := by
  have hand := hs.and hn
  refine hand.imp ?_
  intro a b h
  rcases h with ⟨hle, hne⟩
  constructor
  · intro h1
    by_cases h2 : b ∈ order
    · refine ⟨h2, ?_⟩
      have := (groupLe_iff_of_present h1 h2).mp hle
      rcases lt_or_eq_of_le this with h | h
      · exact h
      · exact absurd (jsIndexOf_inj h1 h2 h) hne
    · exact absurd hle (not_groupLe_of_present_absent h1 h2)
  · intro h1 h2
    have := (groupLe_iff_of_absent h1 h2).mp hle
    rcases lt_trichotomy a b with h | h | h
    · exact h
    · exact absurd h hne
    · exact absurd h this

theorem sortObs_names_pairwise (options : LifeCycleObserverOptions)
    (bindings : List Binding) :
    ((sortObserverBindingsByGroup options bindings).map
      (fun g => g.group)).Pairwise (GroupLe options.groupsByOrder) := by
  refine List.Pairwise.map (fun g => g.group) (fun a b h => ?_)
    (sortObs_sorted options bindings)
  exact h

theorem sortMw_names_pairwise (options : MiddlewareOptions)
    (bindings : List Binding) :
    ((sortMiddlewareBindingsByPhase options bindings).map
      (fun g => g.phase)).Pairwise (GroupLe options.phasesByOrder) := by
  refine List.Pairwise.map (fun g => g.phase) (fun a b h => ?_)
    (sortMw_sorted options bindings)
  exact h

/-- C1 (amended): for every handle set and priority list, each group
sorter (`sortObserverBindingsByGroup`, `sortMiddlewareBindingsByPhase`)
produces a permutation of the distinct classified group names, with no
name repeated, in which any two groups both present in the priority list
appear in the relative index order of the list, while every group absent
from the list appears BEFORE all groups present in the list (not after, as
the claim states), absent groups being ordered lexicographically among
themselves. -/
theorem claim_c1_group_sort_order (options : LifeCycleObserverOptions)
    (mwOptions : MiddlewareOptions) (bindings : List Binding) :
    (((sortObserverBindingsByGroup options bindings).map
        (fun g => g.group)).Perm
      (groupKeys (getObserverGroup options) bindings)) ∧
    ((sortObserverBindingsByGroup options bindings).map
      (fun g => g.group)).Nodup ∧
    ((sortObserverBindingsByGroup options bindings).map
      (fun g => g.group)).Pairwise (codeOrderRel options.groupsByOrder) ∧
    (((sortMiddlewareBindingsByPhase mwOptions bindings).map
        (fun g => g.phase)).Perm (groupKeys getMiddlewarePhase bindings)) ∧
    ((sortMiddlewareBindingsByPhase mwOptions bindings).map
      (fun g => g.phase)).Nodup ∧
    ((sortMiddlewareBindingsByPhase mwOptions bindings).map
      (fun g => g.phase)).Pairwise (codeOrderRel mwOptions.phasesByOrder) :=
  ⟨sortObs_names_perm options bindings,
    sortObs_names_nodup options bindings,
    sorted_names_pairwise_codeOrderRel
      (sortObs_names_pairwise options bindings)
      (sortObs_names_nodup options bindings),
    sortMw_names_perm mwOptions bindings,
    sortMw_names_nodup mwOptions bindings,
    sorted_names_pairwise_codeOrderRel
      (sortMw_names_pairwise mwOptions bindings)
      (sortMw_names_nodup mwOptions bindings)⟩

/-- C1 counterexample: with the priority list `['db', 'server']` and
handles classified to `db`, `server` and `''` (untagged), the code
produces the group order `['', 'db', 'server']`: the group absent from the
priority list sorts before both present groups, so the claimed
present-before-absent ordering is violated. -/
theorem claim_c1_counterexample :
    ((sortObserverBindingsByGroup cxOptions [cxA, cxB, cxC]).map
      (fun g => g.group)) = ["", "db", "server"] ∧
    ¬ claimC1Order cxOptions.groupsByOrder
      ((sortObserverBindingsByGroup cxOptions [cxA, cxB, cxC]).map
        (fun g => g.group)) := by
  constructor
  · decide
  · decide

/-- C7: for every input sequence of handles, each sorter assigns every
handle to exactly one group (the group of its classification, unique since
group names are not repeated), and the members of each group are exactly
the handles classified to it, as the subsequence of the input in input
order (a `filter` of the input). Stated for the lifecycle sorter and the
middleware sorter. -/
theorem claim_c7_partition_registration_order
    (options : LifeCycleObserverOptions) (mwOptions : MiddlewareOptions)
    (bindings : List Binding) :
    (∀ g ∈ sortObserverBindingsByGroup options bindings,
      g.bindings =
        bindings.filter (fun b => getObserverGroup options b == g.group)) ∧
    (∀ b ∈ bindings, ∃ g ∈ sortObserverBindingsByGroup options bindings,
      g.group = getObserverGroup options b ∧ b ∈ g.bindings) ∧
    (∀ b : Binding, ∀ g1 ∈ sortObserverBindingsByGroup options bindings,
      ∀ g2 ∈ sortObserverBindingsByGroup options bindings,
      b ∈ g1.bindings → b ∈ g2.bindings → g1 = g2) ∧
    (∀ g ∈ sortMiddlewareBindingsByPhase mwOptions bindings,
      g.bindings =
        bindings.filter (fun b => getMiddlewarePhase b == g.phase)) ∧
    (∀ b ∈ bindings, ∃ g ∈ sortMiddlewareBindingsByPhase mwOptions bindings,
      g.phase = getMiddlewarePhase b ∧ b ∈ g.bindings) ∧
    (∀ b : Binding, ∀ g1 ∈ sortMiddlewareBindingsByPhase mwOptions bindings,
      ∀ g2 ∈ sortMiddlewareBindingsByPhase mwOptions bindings,
      b ∈ g1.bindings → b ∈ g2.bindings → g1 = g2) := by
  refine ⟨fun g hg => sortObs_bindings_char hg, ?_, ?_,
    fun g hg => sortMw_bindings_char hg, ?_, ?_⟩
  · intro b hb
    have hk : getObserverGroup options b ∈
        groupKeys (getObserverGroup options) bindings :=
      mem_groupKeys.mpr ⟨b, hb, rfl⟩
    have hk2 : getObserverGroup options b ∈
        (sortObserverBindingsByGroup options bindings).map
          (fun g => g.group) :=
      (sortObs_names_perm options bindings).mem_iff.mpr hk
    rcases List.mem_map.mp hk2 with ⟨g, hg, hgname⟩
    refine ⟨g, hg, hgname, ?_⟩
    rw [sortObs_bindings_char hg]
    refine List.mem_filter.mpr ⟨hb, ?_⟩
    rw [← hgname]
    exact beq_self_eq_true _
  · intro b g1 h1 g2 h2 hb1 hb2
    rw [sortObs_bindings_char h1] at hb1
    rw [sortObs_bindings_char h2] at hb2
    have e1 : getObserverGroup options b = g1.group :=
      eq_of_beq (List.mem_filter.mp hb1).2
    have e2 : getObserverGroup options b = g2.group :=
      eq_of_beq (List.mem_filter.mp hb2).2
    exact List.inj_on_of_nodup_map (sortObs_names_nodup options bindings)
      h1 h2 (e1 ▸ e2)
  · intro b hb
    have hk : getMiddlewarePhase b ∈ groupKeys getMiddlewarePhase bindings :=
      mem_groupKeys.mpr ⟨b, hb, rfl⟩
    have hk2 : getMiddlewarePhase b ∈
        (sortMiddlewareBindingsByPhase mwOptions bindings).map
          (fun g => g.phase) :=
      (sortMw_names_perm mwOptions bindings).mem_iff.mpr hk
    rcases List.mem_map.mp hk2 with ⟨g, hg, hgname⟩
    refine ⟨g, hg, hgname, ?_⟩
    rw [sortMw_bindings_char hg]
    refine List.mem_filter.mpr ⟨hb, ?_⟩
    rw [← hgname]
    exact beq_self_eq_true _
  · intro b g1 h1 g2 h2 hb1 hb2
    rw [sortMw_bindings_char h1] at hb1
    rw [sortMw_bindings_char h2] at hb2
    have e1 : getMiddlewarePhase b = g1.phase :=
      eq_of_beq (List.mem_filter.mp hb1).2
    have e2 : getMiddlewarePhase b = g2.phase :=
      eq_of_beq (List.mem_filter.mp hb2).2
    exact List.inj_on_of_nodup_map (sortMw_names_nodup mwOptions bindings)
      h1 h2 (e1 ▸ e2)

theorem except_unit_cases {ε : Type} (x : Except ε Unit) :
    x = Except.ok () ∨ ∃ e, x = Except.error e := by
  rcases x with e | u
  · exact Or.inr ⟨e, rfl⟩
  · cases u
    exact Or.inl rfl

theorem isRejected_false_iff {ε : Type} (s : Settled ε) :
    isRejected s = false ↔ s.result = Except.ok () := by
  unfold isRejected
  rcases hr : s.result with e | u
  · simp
  · cases u
    simp

theorem isRejected_true_iff {ε : Type} (s : Settled ε) :
    isRejected s = true ↔ ∃ e, s.result = Except.error e := by
  unfold isRejected
  rcases hr : s.result with e | u
  · exact ⟨fun _ => ⟨e, rfl⟩, fun _ => rfl⟩
  · cases u
    simp

theorem firstSettled_isSome_of_ne_nil {ε : Type} {l : List (Settled ε)}
    (h : l ≠ []) : ∃ s, firstSettled l = some s := by
  cases l with
  | nil => exact absurd rfl h
  | cons x xs =>
    simp only [firstSettled]
    rcases firstSettled xs with _ | y
    · exact ⟨x, rfl⟩
    · by_cases hlt : y.time < x.time
      · refine ⟨y, ?_⟩
        show (if y.time < x.time then some y else some x) = some y
        rw [if_pos hlt]
      · refine ⟨x, ?_⟩
        show (if y.time < x.time then some y else some x) = some x
        rw [if_neg hlt]

theorem firstSettled_spec {ε : Type} :
    ∀ {l : List (Settled ε)} {s : Settled ε}, firstSettled l = some s →
      s ∈ l ∧ ∀ x ∈ l, s.time ≤ x.time := by
  intro l
  induction l with
  | nil => intro s h; cases h
  | cons x xs ih =>
    intro s h
    simp only [firstSettled] at h
    rcases hfs : firstSettled xs with _ | y <;> rw [hfs] at h
    · have hnil : xs = [] := by
        cases xs with
        | nil => rfl
        | cons z zs =>
          rcases firstSettled_isSome_of_ne_nil
            (l := z :: zs) (by intro hc; cases hc) with ⟨w, hw⟩
          rw [hw] at hfs
          cases hfs
      injection h with hxs
      subst hxs
      subst hnil
      refine ⟨List.mem_singleton.mpr rfl, ?_⟩
      intro z hz
      rw [List.mem_singleton.mp hz]
    · rcases ih hfs with ⟨hy, hbound⟩
      have h2 : (if y.time < x.time then some y else some x) = some s := h
      by_cases hlt : y.time < x.time
      · rw [if_pos hlt] at h2
        injection h2 with hys
        subst hys
        refine ⟨List.mem_cons_of_mem x hy, ?_⟩
        intro z hz
        rcases List.mem_cons.mp hz with hz | hz
        · subst hz
          omega
        · exact hbound z hz
      · rw [if_neg hlt] at h2
        injection h2 with hxs
        subst hxs
        refine ⟨List.mem_cons_self x xs, ?_⟩
        intro z hz
        rcases List.mem_cons.mp hz with hz | hz
        · subst hz
          exact le_refl _
        · have := hbound z hz
          omega

theorem foldl_max_le_init : ∀ (l : List Nat) (n : Nat), n ≤ l.foldl max n := by
  intro l
  induction l with
  | nil =>
    intro n
    exact le_refl n
  | cons x xs ih =>
    intro n
    rw [List.foldl_cons]
    exact le_trans (le_max_left n x) (ih (max n x))

theorem mem_le_foldl_max :
    ∀ {l : List Nat} {x : Nat}, x ∈ l → ∀ n, x ≤ l.foldl max n := by
  intro l
  induction l with
  | nil =>
    intro x hx
    cases hx
  | cons y ys ih =>
    intro x hx n
    rw [List.foldl_cons]
    rcases List.mem_cons.mp hx with hx | hx
    · subst hx
      exact le_trans (le_max_right n x) (foldl_max_le_init ys (max n x))
    · exact ih hx (max n y)

theorem promiseAll_ok_iff {ε : Type} (tasks : List (Settled ε)) :
    (promiseAll tasks).result = Except.ok () ↔
      ∀ t ∈ tasks, t.result = Except.ok () := by
  constructor
  · intro h t ht
    rcases except_unit_cases t.result with hok | ⟨e, he⟩
    · exact hok
    · exfalso
      have htf : t ∈ tasks.filter isRejected :=
        List.mem_filter.mpr ⟨ht, (isRejected_true_iff t).mpr ⟨e, he⟩⟩
      have hne2 : tasks.filter isRejected ≠ [] := by
        intro hnil
        rw [hnil] at htf
        cases htf
      rcases firstSettled_isSome_of_ne_nil hne2 with ⟨s, hfs⟩
      have hsmem := (firstSettled_spec hfs).1
      have hsrej := (List.mem_filter.mp hsmem).2
      rcases (isRejected_true_iff _).mp hsrej with ⟨e2, he2⟩
      unfold promiseAll at h
      rw [hfs] at h
      have h2 : s.result = Except.ok () := h
      rw [he2] at h2
      cases h2
  · intro h
    have hnil : tasks.filter isRejected = [] := by
      rw [List.filter_eq_nil_iff]
      intro t ht
      rw [Bool.not_eq_true, isRejected_false_iff]
      exact h t ht
    unfold promiseAll
    rw [hnil]
    rfl

theorem promiseAll_error_spec {ε : Type} {tasks : List (Settled ε)} {err : ε}
    (h : (promiseAll tasks).result = Except.error err) :
    ∃ t ∈ tasks, t.result = Except.error err ∧
      t.time = (promiseAll tasks).time ∧
      ∀ u ∈ tasks, isRejected u = true →
        (promiseAll tasks).time ≤ u.time := by
  rcases hfs : firstSettled (tasks.filter isRejected) with _ | s
  · exfalso
    have hok : (promiseAll tasks).result = Except.ok () := by
      unfold promiseAll
      rw [hfs]
    rw [hok] at h
    cases h
  · have hval : promiseAll tasks = s := by
      unfold promiseAll
      rw [hfs]
    rcases firstSettled_spec hfs with ⟨hmem, hbound⟩
    have hst : s ∈ tasks := (List.mem_filter.mp hmem).1
    refine ⟨s, hst, ?_, ?_, ?_⟩
    · rw [hval] at h
      exact h
    · rw [hval]
    · intro u hu hurej
      rw [hval]
      exact hbound u (List.mem_filter.mpr ⟨hu, hurej⟩)

theorem promiseAll_ok_awaits_all {ε : Type} {tasks : List (Settled ε)}
    (h : ∀ t ∈ tasks, t.result = Except.ok ()) :
    (promiseAll tasks).result = Except.ok () ∧
      ∀ t ∈ tasks, t.time ≤ (promiseAll tasks).time := by
  have hnil : tasks.filter isRejected = [] := by
    rw [List.filter_eq_nil_iff]
    intro t ht
    rw [Bool.not_eq_true, isRejected_false_iff]
    exact h t ht
  refine ⟨(promiseAll_ok_iff tasks).mpr h, ?_⟩
  intro t ht
  unfold promiseAll
  rw [hnil]
  show t.time ≤ (tasks.map (fun t => t.time)).foldl max 0
  exact mem_le_foldl_max (List.mem_map_of_mem (fun t => t.time) ht) 0

theorem seqNotify_ok_iff {ε : Type} (outcome : Outcome ε) (event : EventName) :
    ∀ bs : List Binding, seqNotify outcome event bs = Except.ok () ↔
      ∀ b ∈ bs, (outcome event b).result = Except.ok () := by
  intro bs
  induction bs with
  | nil => simp [seqNotify]
  | cons b rest ih =>
    rcases hr : (outcome event b).result with e | u
    · have hval : seqNotify outcome event (b :: rest) = Except.error e := by
        simp [seqNotify, hr]
      rw [hval]
      constructor
      · intro h
        cases h
      · intro h
        have hb := h b (List.mem_cons_self b rest)
        rw [hr] at hb
        cases hb
    · cases u
      have hval : seqNotify outcome event (b :: rest) =
          seqNotify outcome event rest := by
        simp [seqNotify, hr]
      rw [hval, ih]
      constructor
      · intro h b2 hb2
        rcases List.mem_cons.mp hb2 with hb2 | hb2
        · subst hb2
          exact hr
        · exact h b2 hb2
      · intro h b2 hb2
        exact h b2 (List.mem_cons_of_mem b hb2)

theorem seqNotify_error_spec {ε : Type} {outcome : Outcome ε}
    {event : EventName} :
    ∀ {bs : List Binding} {err : ε},
      seqNotify outcome event bs = Except.error err →
      ∃ b ∈ bs, (outcome event b).result = Except.error err := by
  intro bs
  induction bs with
  | nil =>
    intro err h
    cases h
  | cons b rest ih =>
    intro err h
    rcases hr : (outcome event b).result with e | u
    · have hval : seqNotify outcome event (b :: rest) = Except.error e := by
        simp [seqNotify, hr]
      rw [hval] at h
      injection h with he
      rw [he] at hr
      exact ⟨b, List.mem_cons_self b rest, hr⟩
    · cases u
      have hval : seqNotify outcome event (b :: rest) =
          seqNotify outcome event rest := by
        simp [seqNotify, hr]
      rw [hval] at h
      rcases ih h with ⟨b2, hb2, he2⟩
      exact ⟨b2, List.mem_cons_of_mem b hb2, he2⟩

theorem notifyObserverGroup_ok_iff {ε : Type}
    (options : LifeCycleObserverOptions) (outcome : Outcome ε)
    (group : LifeCycleObserverGroup) (event : EventName) :
    notifyObserverGroup options outcome group event = Except.ok () ↔
      ∀ b ∈ group.bindings, (outcome event b).result = Except.ok () := by
  unfold notifyObserverGroup notifyObserverGroupSettled
  split
  · rw [promiseAll_ok_iff]
    constructor
    · intro h b hb
      exact h (outcome event b) (List.mem_map_of_mem _ hb)
    · intro h t ht
      rcases List.mem_map.mp ht with ⟨b, hb, hbt⟩
      rw [← hbt]
      exact h b hb
  · exact seqNotify_ok_iff outcome event group.bindings

theorem notifyObserverGroup_error_spec {ε : Type}
    {options : LifeCycleObserverOptions} {outcome : Outcome ε}
    {group : LifeCycleObserverGroup} {event : EventName} {err : ε}
    (h : notifyObserverGroup options outcome group event = Except.error err) :
    ∃ b ∈ group.bindings, (outcome event b).result = Except.error err := by
  unfold notifyObserverGroup notifyObserverGroupSettled at h
  split at h
  · rcases promiseAll_error_spec h with ⟨t, ht, hte, _, _⟩
    rcases List.mem_map.mp ht with ⟨b, hb, hbt⟩
    refine ⟨b, hb, ?_⟩
    rw [hbt]
    exact hte
  · exact seqNotify_error_spec h

theorem notifyGroupsForEvent_none_iff {ε : Type}
    (notify : EventName → LifeCycleObserverGroup → Except ε Unit)
    (event : EventName) :
    ∀ gs : List LifeCycleObserverGroup,
      (notifyGroupsForEvent notify event gs).2 = none ↔
        ∀ g ∈ gs, notify event g = Except.ok () := by
  intro gs
  induction gs with
  | nil => simp [notifyGroupsForEvent]
  | cons g rest ih =>
    rcases hng : notify event g with e | u
    · have hval : notifyGroupsForEvent notify event (g :: rest) =
          ([(event, g.group)], some e) := by
        simp [notifyGroupsForEvent, hng]
      rw [hval]
      constructor
      · intro h
        cases h
      · intro h
        have hg := h g (List.mem_cons_self g rest)
        rw [hng] at hg
        cases hg
    · cases u
      have hval : (notifyGroupsForEvent notify event (g :: rest)).2 =
          (notifyGroupsForEvent notify event rest).2 := by
        simp [notifyGroupsForEvent, hng]
      rw [hval, ih]
      constructor
      · intro h g2 hg2
        rcases List.mem_cons.mp hg2 with hg2 | hg2
        · subst hg2
          exact hng
        · exact h g2 hg2
      · intro h g2 hg2
        exact h g2 (List.mem_cons_of_mem g hg2)

theorem notifyGroupsForEvent_none_trace {ε : Type}
    {notify : EventName → LifeCycleObserverGroup → Except ε Unit}
    {event : EventName} :
    ∀ {gs : List LifeCycleObserverGroup},
      (notifyGroupsForEvent notify event gs).2 = none →
      (notifyGroupsForEvent notify event gs).1 =
        gs.map (fun g => (event, g.group)) := by
  intro gs
  induction gs with
  | nil =>
    intro _
    rfl
  | cons g rest ih =>
    intro h
    rcases hng : notify event g with e | u
    · have hval : notifyGroupsForEvent notify event (g :: rest) =
          ([(event, g.group)], some e) := by
        simp [notifyGroupsForEvent, hng]
      rw [hval] at h
      cases h
    · cases u
      have hval : notifyGroupsForEvent notify event (g :: rest) =
          ((event, g.group) :: (notifyGroupsForEvent notify event rest).1,
            (notifyGroupsForEvent notify event rest).2) := by
        simp [notifyGroupsForEvent, hng]
      rw [hval] at h ⊢
      simp only [List.map_cons, List.cons.injEq, true_and]
      exact ih h

theorem notifyGroupsForEvent_some_spec {ε : Type}
    {notify : EventName → LifeCycleObserverGroup → Except ε Unit}
    {event : EventName} :
    ∀ {gs : List LifeCycleObserverGroup} {err : ε},
      (notifyGroupsForEvent notify event gs).2 = some err →
      ∃ gs1 g gs2, gs = gs1 ++ g :: gs2 ∧
        (∀ g2 ∈ gs1, notify event g2 = Except.ok ()) ∧
        notify event g = Except.error err ∧
        (notifyGroupsForEvent notify event gs).1 =
          gs1.map (fun g2 => (event, g2.group)) ++ [(event, g.group)] := by
  intro gs
  induction gs with
  | nil =>
    intro err h
    cases h
  | cons g rest ih =>
    intro err h
    rcases hng : notify event g with e | u
    · have hval : notifyGroupsForEvent notify event (g :: rest) =
          ([(event, g.group)], some e) := by
        simp [notifyGroupsForEvent, hng]
      rw [hval] at h ⊢
      injection h with he
      subst he
      exact ⟨[], g, rest, rfl, fun g2 hg2 => absurd hg2 (List.not_mem_nil g2),
        hng, rfl⟩
    · cases u
      have hval : notifyGroupsForEvent notify event (g :: rest) =
          ((event, g.group) :: (notifyGroupsForEvent notify event rest).1,
            (notifyGroupsForEvent notify event rest).2) := by
        simp [notifyGroupsForEvent, hng]
      rw [hval] at h ⊢
      rcases ih h with ⟨gs1, g0, gs2, hsplit, hok, herr, htrace⟩
      refine ⟨g :: gs1, g0, gs2, by rw [hsplit, List.cons_append], ?_, herr, ?_⟩
      · intro g2 hg2
        rcases List.mem_cons.mp hg2 with hg2 | hg2
        · subst hg2
          exact hng
        · exact hok g2 hg2
      · simp only [List.map_cons, List.cons_append, List.cons.injEq, true_and]
        exact htrace

theorem notifyGroups_none_iff {ε : Type}
    (notify : EventName → LifeCycleObserverGroup → Except ε Unit) :
    ∀ (events : List EventName) (gs : List LifeCycleObserverGroup),
      (notifyGroups notify events gs).2 = none ↔
        ∀ e ∈ events, ∀ g ∈ gs, notify e g = Except.ok () := by
  intro events
  induction events with
  | nil =>
    intro gs
    simp [notifyGroups]
  | cons e rest ih =>
    intro gs
    rcases h1 : (notifyGroupsForEvent notify e gs).2 with _ | err
    · have hval : (notifyGroups notify (e :: rest) gs).2 =
          (notifyGroups notify rest gs).2 := by
        simp [notifyGroups, h1]
      rw [hval, ih]
      constructor
      · intro h e2 he2 g hg
        rcases List.mem_cons.mp he2 with he2 | he2
        · subst he2
          exact ((notifyGroupsForEvent_none_iff notify e2 gs).mp h1) g hg
        · exact h e2 he2 g hg
      · intro h e2 he2 g hg
        exact h e2 (List.mem_cons_of_mem e he2) g hg
    · have hval : (notifyGroups notify (e :: rest) gs).2 = some err := by
        simp [notifyGroups, h1]
      rw [hval]
      constructor
      · intro h
        cases h
      · intro h
        have : (notifyGroupsForEvent notify e gs).2 = none :=
          (notifyGroupsForEvent_none_iff notify e gs).mpr
            (fun g hg => h e (List.mem_cons_self e rest) g hg)
        rw [h1] at this
        cases this

theorem notifyGroups_none_trace {ε : Type}
    {notify : EventName → LifeCycleObserverGroup → Except ε Unit} :
    ∀ {events : List EventName} {gs : List LifeCycleObserverGroup},
      (notifyGroups notify events gs).2 = none →
      (notifyGroups notify events gs).1 = itinerary events gs := by
  intro events
  induction events with
  | nil =>
    intro gs _
    rfl
  | cons e rest ih =>
    intro gs h
    rcases h1 : (notifyGroupsForEvent notify e gs).2 with _ | err
    · have hval : notifyGroups notify (e :: rest) gs =
          ((notifyGroupsForEvent notify e gs).1 ++
            (notifyGroups notify rest gs).1,
            (notifyGroups notify rest gs).2) := by
        simp [notifyGroups, h1]
      rw [hval] at h ⊢
      rw [notifyGroupsForEvent_none_trace h1, ih h]
      simp [itinerary]
    · have hval : notifyGroups notify (e :: rest) gs =
          ((notifyGroupsForEvent notify e gs).1, some err) := by
        simp [notifyGroups, h1]
      rw [hval] at h
      cases h

theorem notifyGroups_some_spec {ε : Type}
    {notify : EventName → LifeCycleObserverGroup → Except ε Unit} :
    ∀ {events : List EventName} {gs : List LifeCycleObserverGroup} {err : ε},
      (notifyGroups notify events gs).2 = some err →
      ∃ es1 e es2 gs1 g gs2,
        events = es1 ++ e :: es2 ∧ gs = gs1 ++ g :: gs2 ∧
        (∀ e2 ∈ es1, ∀ g2 ∈ gs, notify e2 g2 = Except.ok ()) ∧
        (∀ g2 ∈ gs1, notify e g2 = Except.ok ()) ∧
        notify e g = Except.error err ∧
        (notifyGroups notify events gs).1 =
          itinerary es1 gs ++ gs1.map (fun g2 => (e, g2.group)) ++
            [(e, g.group)] := by
  intro events
  induction events with
  | nil =>
    intro gs err h
    cases h
  | cons e rest ih =>
    intro gs err h
    rcases h1 : (notifyGroupsForEvent notify e gs).2 with _ | err1
    · have hval : notifyGroups notify (e :: rest) gs =
          ((notifyGroupsForEvent notify e gs).1 ++
            (notifyGroups notify rest gs).1,
            (notifyGroups notify rest gs).2) := by
        simp [notifyGroups, h1]
      rw [hval] at h ⊢
      rcases ih h with ⟨es1, e0, es2, gs1, g0, gs2, hes, hgs, hok1, hok2,
        herr, htrace⟩
      refine ⟨e :: es1, e0, es2, gs1, g0, gs2, by rw [hes, List.cons_append], hgs, ?_, hok2,
        herr, ?_⟩
      · intro e2 he2 g2 hg2
        rcases List.mem_cons.mp he2 with he2 | he2
        · subst he2
          exact ((notifyGroupsForEvent_none_iff notify e2 gs).mp h1) g2 hg2
        · exact hok1 e2 he2 g2 hg2
      · rw [notifyGroupsForEvent_none_trace h1, htrace]
        simp [itinerary]
    · have hval : notifyGroups notify (e :: rest) gs =
          ((notifyGroupsForEvent notify e gs).1, some err1) := by
        simp [notifyGroups, h1]
      rw [hval] at h ⊢
      injection h with he
      subst he
      rcases notifyGroupsForEvent_some_spec h1 with
        ⟨gs1, g0, gs2, hgs, hok, herr, htrace⟩
      exact ⟨[], e, rest, gs1, g0, gs2, rfl, hgs,
        fun e2 he2 => absurd he2 (List.not_mem_nil e2), hok, herr, by
          rw [htrace]
          simp [itinerary]⟩

theorem pairwise_of_forall {β : Type} {R : β → β → Prop} (h : ∀ a b, R a b) :
    ∀ l : List β, l.Pairwise R := by
  intro l
  induction l with
  | nil => exact List.Pairwise.nil
  | cons x xs ih => exact List.Pairwise.cons (fun b _ => h x b) ih

theorem mem_itinerary {p : EventName × String} {events : List EventName}
    {gs : List LifeCycleObserverGroup} :
    p ∈ itinerary events gs ↔
      ∃ e ∈ events, ∃ g ∈ gs, p = (e, g.group) := by
  simp only [itinerary, List.mem_flatMap, List.mem_map]
  constructor
  · rintro ⟨e, he, g, hg, hp⟩
    exact ⟨e, he, g, hg, hp.symm⟩
  · rintro ⟨e, he, g, hg, hp⟩
    exact ⟨e, he, g, hg, hp.symm⟩

theorem itinerary_event_pairwise {v : EventName → Int}
    (events : List EventName) (gs : List LifeCycleObserverGroup)
    (hp : events.Pairwise (fun a b => v a ≤ v b)) :
    ((itinerary events gs).map (fun p => v p.1)).Pairwise (· ≤ ·) := by
  induction events with
  | nil => exact List.Pairwise.nil
  | cons e rest ih =>
    rcases List.pairwise_cons.mp hp with ⟨hhead, htail⟩
    have hsplit : itinerary (e :: rest) gs =
        gs.map (fun g => (e, g.group)) ++ itinerary rest gs := by
      simp [itinerary]
    rw [hsplit, List.map_append]
    rw [List.pairwise_append]
    refine ⟨?_, ih htail, ?_⟩
    · rw [List.map_map]
      refine List.pairwise_map.mpr ?_
      exact pairwise_of_forall (fun a b => le_refl (v e)) gs
    · intro a ha b hb
      rcases List.mem_map.mp ha with ⟨p, hp2, hpa⟩
      rcases List.mem_map.mp hb with ⟨q, hq2, hqb⟩
      rcases List.mem_map.mp hp2 with ⟨g, _, hgp⟩
      rcases mem_itinerary.mp hq2 with ⟨e2, he2, g2, _, hq⟩
      rw [← hpa, ← hgp]
      rw [← hqb, hq]
      exact hhead e2 he2

theorem startEvents_idx_pairwise :
    startEvents.Pairwise
      (fun a b => jsIndexOf startEvents a ≤ jsIndexOf startEvents b) := by
  decide

theorem stopEvents_idx_pairwise :
    stopEvents.Pairwise
      (fun a b => jsIndexOf stopEvents a ≤ jsIndexOf stopEvents b) := by
  decide

/-- C2: for every handle set and configuration, the groups `stop()` walks
are exactly the reverse of the groups `start()` walks: the group-name
order reverses, each group record (so the member order inside each group)
is unchanged, and a successful run of either transition visits, for each
of its sub-events in declared order, every group in the respective group
order — the sub-event sequence itself is not reversed. -/
theorem claim_c2_stop_reverses_start {ε : Type}
    (options : LifeCycleObserverOptions)
    (outcomeStart outcomeStop : Outcome ε) (bindings : List Binding) :
    (((sortObserverBindingsByGroup options bindings).reverse).map
        (fun g => g.group) =
      ((sortObserverBindingsByGroup options bindings).map
        (fun g => g.group)).reverse) ∧
    (∀ g : LifeCycleObserverGroup,
      g ∈ (sortObserverBindingsByGroup options bindings).reverse ↔
        g ∈ sortObserverBindingsByGroup options bindings) ∧
    ((start options outcomeStart bindings).2 = none →
      (start options outcomeStart bindings).1 =
        itinerary startEvents (sortObserverBindingsByGroup options bindings)) ∧
    ((stop options outcomeStop bindings).2 = none →
      (stop options outcomeStop bindings).1 =
        itinerary stopEvents
          ((sortObserverBindingsByGroup options bindings).reverse)) := by
  refine ⟨List.map_reverse _ _, fun g => List.mem_reverse, ?_, ?_⟩
  · intro h
    exact notifyGroups_none_trace h
  · intro h
    exact notifyGroups_none_trace h

/-- C2 witness: the concrete scenario with groups `db`, `server`, `''`, all
invocations fulfilling. -/
theorem claim_c2_witness :
    (start cxOptions cxOkOutcome [cxA, cxB, cxC]).1 =
      itinerary startEvents
        (sortObserverBindingsByGroup cxOptions [cxA, cxB, cxC]) ∧
    (stop cxOptions cxOkOutcome [cxA, cxB, cxC]).1 =
      itinerary stopEvents
        ((sortObserverBindingsByGroup cxOptions [cxA, cxB, cxC]).reverse) :=
  ⟨(claim_c2_stop_reverses_start cxOptions cxOkOutcome cxOkOutcome
      [cxA, cxB, cxC]).2.2.1 (by decide),
    (claim_c2_stop_reverses_start cxOptions cxOkOutcome cxOkOutcome
      [cxA, cxB, cxC]).2.2.2 (by decide)⟩

/-- C3 (amended): in parallel mode, when every member fulfills, the group
notification settles only once the last member has (so success does await
all members); when some member rejects, the notification rejects with the
error of the earliest-settling rejection at that rejection's own settle
time — every pending rejection settles no earlier, but a still-pending
fulfilling member is NOT awaited before the error surfaces
(`Promise.all` short-circuits on rejection; the remaining invocations keep
running, they are just not awaited). -/
theorem claim_c3_parallel_first_error {ε : Type} (outcome : Outcome ε)
    (group : LifeCycleObserverGroup) (event : EventName) :
    (∀ err,
      (notifyObserverGroupSettled outcome group event).result =
        Except.error err →
      ∃ b ∈ group.bindings, (outcome event b).result = Except.error err ∧
        (outcome event b).time =
          (notifyObserverGroupSettled outcome group event).time ∧
        ∀ b2 ∈ group.bindings, isRejected (outcome event b2) = true →
          (notifyObserverGroupSettled outcome group event).time ≤
            (outcome event b2).time) ∧
    ((∀ b ∈ group.bindings, (outcome event b).result = Except.ok ()) →
      (notifyObserverGroupSettled outcome group event).result =
        Except.ok () ∧
      ∀ b ∈ group.bindings, (outcome event b).time ≤
        (notifyObserverGroupSettled outcome group event).time) := by
  constructor
  · intro err h
    unfold notifyObserverGroupSettled at h ⊢
    rcases promiseAll_error_spec h with ⟨t, ht, hte, htime, hmin⟩
    rcases List.mem_map.mp ht with ⟨b, hb, hbt⟩
    refine ⟨b, hb, ?_, ?_, ?_⟩
    · rw [hbt]
      exact hte
    · rw [hbt]
      exact htime
    · intro b2 hb2 hrej
      exact hmin (outcome event b2) (List.mem_map_of_mem _ hb2) hrej
  · intro h
    unfold notifyObserverGroupSettled
    have hall : ∀ t ∈ group.bindings.map (fun b => outcome event b),
        t.result = Except.ok () := by
      intro t ht
      rcases List.mem_map.mp ht with ⟨b, hb, hbt⟩
      rw [← hbt]
      exact h b hb
    rcases promiseAll_ok_awaits_all hall with ⟨hok, hbound⟩
    exact ⟨hok, fun b hb =>
      hbound (outcome event b) (List.mem_map_of_mem _ hb)⟩

/-- C3 counterexample: a parallel group with a member rejecting at time 1
and a member fulfilling at time 5: the group notification surfaces the
error at time 1, before the fulfilling member completes at time 5, so the
claim that every concurrent invocation is awaited to completion before the
error surfaces is false. -/
theorem claim_c3_counterexample :
    (notifyObserverGroupSettled cxMixedOutcome cxGroup "start").result =
      Except.error "boom" ∧
    (notifyObserverGroupSettled cxMixedOutcome cxGroup "start").time = 1 ∧
    cxSlowOk ∈ cxGroup.bindings ∧
    (cxMixedOutcome "start" cxSlowOk).time = 5 ∧
    ¬ (∀ b ∈ cxGroup.bindings, (cxMixedOutcome "start" b).time ≤
        (notifyObserverGroupSettled cxMixedOutcome cxGroup "start").time) := by
  refine ⟨by decide, by decide, by decide, by decide, by decide⟩

/-- C3 witness: the amended theorem applied to the concrete mixed-outcome
group, surfacing the rejection of the fast member. -/
theorem claim_c3_witness :
    ∃ b ∈ cxGroup.bindings,
      (cxMixedOutcome "start" b).result = Except.error "boom" ∧
      (cxMixedOutcome "start" b).time =
        (notifyObserverGroupSettled cxMixedOutcome cxGroup "start").time ∧
      ∀ b2 ∈ cxGroup.bindings, isRejected (cxMixedOutcome "start" b2) = true →
        (notifyObserverGroupSettled cxMixedOutcome cxGroup "start").time ≤
          (cxMixedOutcome "start" b2).time :=
  (claim_c3_parallel_first_error cxMixedOutcome cxGroup "start").1 "boom"
    (by decide)

/-- C4: for every run of `start()` or `stop()`, the run reports no error
exactly when every member invocation of every sub-event fulfills (a
failure is never swallowed), and when an error is reported, it is the
error of a member of the first failing group notification: every earlier
sub-event notified every group successfully, every earlier group of the
failing sub-event was notified successfully, and the trace stops exactly
at the failing group — no later group and no later sub-event is
notified. -/
theorem claim_c4_error_propagates_and_aborts {ε : Type}
    (options : LifeCycleObserverOptions) (outcome : Outcome ε)
    (bindings : List Binding) :
    ((start options outcome bindings).2 = none ↔
      allMembersOk outcome startEvents
        (sortObserverBindingsByGroup options bindings)) ∧
    (∀ err, (start options outcome bindings).2 = some err →
      ∃ es1 e es2 gs1 g gs2,
        startEvents = es1 ++ e :: es2 ∧
        sortObserverBindingsByGroup options bindings = gs1 ++ g :: gs2 ∧
        (∀ e2 ∈ es1, ∀ g2 ∈ sortObserverBindingsByGroup options bindings,
          notifyObserverGroup options outcome g2 e2 = Except.ok ()) ∧
        (∀ g2 ∈ gs1,
          notifyObserverGroup options outcome g2 e = Except.ok ()) ∧
        (∃ b ∈ g.bindings, (outcome e b).result = Except.error err) ∧
        (start options outcome bindings).1 =
          itinerary es1 (sortObserverBindingsByGroup options bindings) ++
            gs1.map (fun g2 => (e, g2.group)) ++ [(e, g.group)]) ∧
    ((stop options outcome bindings).2 = none ↔
      allMembersOk outcome stopEvents
        ((sortObserverBindingsByGroup options bindings).reverse)) ∧
    (∀ err, (stop options outcome bindings).2 = some err →
      ∃ es1 e es2 gs1 g gs2,
        stopEvents = es1 ++ e :: es2 ∧
        (sortObserverBindingsByGroup options bindings).reverse =
          gs1 ++ g :: gs2 ∧
        (∀ e2 ∈ es1,
          ∀ g2 ∈ (sortObserverBindingsByGroup options bindings).reverse,
          notifyObserverGroup options outcome g2 e2 = Except.ok ()) ∧
        (∀ g2 ∈ gs1,
          notifyObserverGroup options outcome g2 e = Except.ok ()) ∧
        (∃ b ∈ g.bindings, (outcome e b).result = Except.error err) ∧
        (stop options outcome bindings).1 =
          itinerary es1 ((sortObserverBindingsByGroup options bindings).reverse)
            ++ gs1.map (fun g2 => (e, g2.group)) ++ [(e, g.group)]) := by
  refine ⟨?_, ?_, ?_, ?_⟩
  · unfold start allMembersOk
    rw [notifyGroups_none_iff]
    constructor
    · intro h e he g hg b hb
      exact (notifyObserverGroup_ok_iff options outcome g e).mp
        (h e he g hg) b hb
    · intro h e he g hg
      exact (notifyObserverGroup_ok_iff options outcome g e).mpr
        (fun b hb => h e he g hg b hb)
  · intro err h
    unfold start at h ⊢
    rcases notifyGroups_some_spec h with
      ⟨es1, e, es2, gs1, g, gs2, hes, hgs, hok1, hok2, herr, htrace⟩
    exact ⟨es1, e, es2, gs1, g, gs2, hes, hgs, hok1, hok2,
      notifyObserverGroup_error_spec herr, htrace⟩
  · unfold stop allMembersOk
    rw [notifyGroups_none_iff]
    constructor
    · intro h e he g hg b hb
      exact (notifyObserverGroup_ok_iff options outcome g e).mp
        (h e he g hg) b hb
    · intro h e he g hg
      exact (notifyObserverGroup_ok_iff options outcome g e).mpr
        (fun b hb => h e he g hg b hb)
  · intro err h
    unfold stop at h ⊢
    rcases notifyGroups_some_spec h with
      ⟨es1, e, es2, gs1, g, gs2, hes, hgs, hok1, hok2, herr, htrace⟩
    exact ⟨es1, e, es2, gs1, g, gs2, hes, hgs, hok1, hok2,
      notifyObserverGroup_error_spec herr, htrace⟩

/-- C4 witness: the concrete scenario in which handle B rejects its
`start` method: the run reports the error, and the failing run decomposes
as the theorem states. -/
theorem claim_c4_witness :
    (start cxOptions cxOkOutcome [cxA, cxB, cxC]).2 = none ∧
    ∃ es1 e es2 gs1 g gs2,
      startEvents = es1 ++ e :: es2 ∧
      sortObserverBindingsByGroup cxOptions [cxA, cxB, cxC] =
        gs1 ++ g :: gs2 ∧
      (∀ e2 ∈ es1,
        ∀ g2 ∈ sortObserverBindingsByGroup cxOptions [cxA, cxB, cxC],
        notifyObserverGroup cxOptions cxFailBOutcome g2 e2 =
          Except.ok ()) ∧
      (∀ g2 ∈ gs1, notifyObserverGroup cxOptions cxFailBOutcome g2 e =
        Except.ok ()) ∧
      (∃ b ∈ g.bindings,
        (cxFailBOutcome e b).result = Except.error "crash") ∧
      (start cxOptions cxFailBOutcome [cxA, cxB, cxC]).1 =
        itinerary es1
          (sortObserverBindingsByGroup cxOptions [cxA, cxB, cxC]) ++
          gs1.map (fun g2 => (e, g2.group)) ++ [(e, g.group)] :=
  ⟨((claim_c4_error_propagates_and_aborts cxOptions cxOkOutcome
      [cxA, cxB, cxC]).1).mpr (by decide),
    ((claim_c4_error_propagates_and_aborts cxOptions cxFailBOutcome
      [cxA, cxB, cxC]).2.1) "crash" (by decide)⟩

/-- C5: for every successful `start()` (resp. `stop()`), the trace is the
full sub-event-major itinerary: the sequence of visited sub-event indices
is monotone (every group receives sub-event k before any group receives
sub-event k+1), and every (sub-event, group) pair of the declared
sub-event list and the ordered group list is visited. -/
theorem claim_c5_subevent_major {ε : Type}
    (options : LifeCycleObserverOptions)
    (outcomeStart outcomeStop : Outcome ε) (bindings : List Binding) :
    ((start options outcomeStart bindings).2 = none →
      (start options outcomeStart bindings).1 =
        itinerary startEvents
          (sortObserverBindingsByGroup options bindings) ∧
      ((start options outcomeStart bindings).1.map
        (fun p => jsIndexOf startEvents p.1)).Pairwise (· ≤ ·) ∧
      ∀ e ∈ startEvents, ∀ g ∈ sortObserverBindingsByGroup options bindings,
        (e, g.group) ∈ (start options outcomeStart bindings).1) ∧
    ((stop options outcomeStop bindings).2 = none →
      (stop options outcomeStop bindings).1 =
        itinerary stopEvents
          ((sortObserverBindingsByGroup options bindings).reverse) ∧
      ((stop options outcomeStop bindings).1.map
        (fun p => jsIndexOf stopEvents p.1)).Pairwise (· ≤ ·) ∧
      ∀ e ∈ stopEvents,
        ∀ g ∈ (sortObserverBindingsByGroup options bindings).reverse,
        (e, g.group) ∈ (stop options outcomeStop bindings).1) := by
  constructor
  · intro h
    have htr : (start options outcomeStart bindings).1 =
        itinerary startEvents
          (sortObserverBindingsByGroup options bindings) :=
      notifyGroups_none_trace h
    refine ⟨htr, ?_, ?_⟩
    · rw [htr]
      exact itinerary_event_pairwise startEvents _ startEvents_idx_pairwise
    · intro e he g hg
      rw [htr]
      exact mem_itinerary.mpr ⟨e, he, g, hg, rfl⟩
  · intro h
    have htr : (stop options outcomeStop bindings).1 =
        itinerary stopEvents
          ((sortObserverBindingsByGroup options bindings).reverse) :=
      notifyGroups_none_trace h
    refine ⟨htr, ?_, ?_⟩
    · rw [htr]
      exact itinerary_event_pairwise stopEvents _ stopEvents_idx_pairwise
    · intro e he g hg
      rw [htr]
      exact mem_itinerary.mpr ⟨e, he, g, hg, rfl⟩

/-- C5 witness: the successful concrete scenario, for `start` and for
`stop`. -/
theorem claim_c5_witness :
    (((start cxOptions cxOkOutcome [cxA, cxB, cxC]).1.map
      (fun p => jsIndexOf startEvents p.1)).Pairwise (· ≤ ·) ∧
      ∀ e ∈ startEvents,
        ∀ g ∈ sortObserverBindingsByGroup cxOptions [cxA, cxB, cxC],
        (e, g.group) ∈ (start cxOptions cxOkOutcome [cxA, cxB, cxC]).1) ∧
    (((stop cxOptions cxOkOutcome [cxA, cxB, cxC]).1.map
      (fun p => jsIndexOf stopEvents p.1)).Pairwise (· ≤ ·) ∧
      ∀ e ∈ stopEvents,
        ∀ g ∈ (sortObserverBindingsByGroup cxOptions [cxA, cxB, cxC]).reverse,
        (e, g.group) ∈ (stop cxOptions cxOkOutcome [cxA, cxB, cxC]).1) :=
  ⟨⟨((claim_c5_subevent_major cxOptions cxOkOutcome cxOkOutcome
        [cxA, cxB, cxC]).1 (by decide)).2.1,
      ((claim_c5_subevent_major cxOptions cxOkOutcome cxOkOutcome
        [cxA, cxB, cxC]).1 (by decide)).2.2⟩,
    ⟨((claim_c5_subevent_major cxOptions cxOkOutcome cxOkOutcome
        [cxA, cxB, cxC]).2 (by decide)).2.1,
      ((claim_c5_subevent_major cxOptions cxOkOutcome cxOkOutcome
        [cxA, cxB, cxC]).2 (by decide)).2.2⟩⟩

/-- C6 (amended): classification returns the value of the explicit
group-name tag only when that value is truthy (present AND non-empty);
when the explicit tag is missing or empty it returns the first
`groupsByOrder` name present on the handle as a same-key/same-value marker
tag, defaulting to the empty string; a handle with no tags at all
classifies to the empty string. -/
theorem claim_c6_classifier (options : LifeCycleObserverOptions)
    (binding : Binding) :
    (∀ v, tagGet binding.tagMap CoreTags.LIFE_CYCLE_OBSERVER_GROUP = some v →
      v ≠ "" → getObserverGroup options binding = v) ∧
    (jsFalsyStr (tagGet binding.tagMap CoreTags.LIFE_CYCLE_OBSERVER_GROUP) =
        true →
      getObserverGroup options binding =
        jsOrEmpty (options.groupsByOrder.find?
          (fun g => tagGet binding.tagMap g == some g))) ∧
    (binding.tagMap = [] → getObserverGroup options binding = "") := by
  refine ⟨?_, ?_, ?_⟩
  · intro v hv hne
    simp [getObserverGroup, hv, jsFalsyStr, jsOrEmpty, hne]
  · intro hf
    simp [getObserverGroup, hf]
  · intro h
    have ht : ∀ k, tagGet binding.tagMap k = none := by
      intro k
      rw [h]
      rfl
    have hf : jsFalsyStr
        (tagGet binding.tagMap CoreTags.LIFE_CYCLE_OBSERVER_GROUP) = true := by
      rw [ht]
      rfl
    have hfind : options.groupsByOrder.find?
        (fun g => tagGet binding.tagMap g == some g) = none := by
      rw [List.find?_eq_none]
      intro x _
      rw [ht x]
      intro hc
      exact Bool.noConfusion hc
    simp only [getObserverGroup, hf, if_true]
    rw [hfind]
    rfl

/-- C6 counterexample: a handle whose tag map CONTAINS the explicit
group-name tag with value `''` but also carries a `server` marker tag
classifies to `server`, not to the explicit tag value `''` that the claim
requires (the code tests the tag for truthiness, not presence). -/
theorem claim_c6_counterexample :
    tagGet cxEmptyTagged.tagMap CoreTags.LIFE_CYCLE_OBSERVER_GROUP =
      some "" ∧
    getObserverGroup defaultLifeCycleObserverOptions cxEmptyTagged =
      "server" ∧
    claimClassify defaultLifeCycleObserverOptions cxEmptyTagged = "" ∧
    getObserverGroup defaultLifeCycleObserverOptions cxEmptyTagged ≠
      claimClassify defaultLifeCycleObserverOptions cxEmptyTagged := by
  refine ⟨by decide, by decide, by decide, by decide⟩

/-- C6 witness: a truthy explicit tag is returned as the group. -/
theorem claim_c6_witness : getObserverGroup cxOptions cxA = "db" :=
  (claim_c6_classifier cxOptions cxA).1 "db" (by decide) (by decide)

theorem groupKeys_foldl_congr {c1 c2 : Binding → String} :
    ∀ (bs : List Binding) (acc : List String), (∀ b ∈ bs, c1 b = c2 b) →
      bs.foldl (fun a b => insertGroupKey a (c1 b)) acc =
        bs.foldl (fun a b => insertGroupKey a (c2 b)) acc := by
  intro bs
  induction bs with
  | nil =>
    intro acc _
    rfl
  | cons b rest ih =>
    intro acc h
    rw [List.foldl_cons, List.foldl_cons,
      h b (List.mem_cons_self b rest)]
    exact ih _ (fun b2 hb2 => h b2 (List.mem_cons_of_mem b hb2))

theorem partitionByGroup_congr {c1 c2 : Binding → String}
    {bindings : List Binding} (h : ∀ b ∈ bindings, c1 b = c2 b) :
    partitionByGroup c1 bindings = partitionByGroup c2 bindings := by
  unfold partitionByGroup groupKeys
  rw [groupKeys_foldl_congr bindings [] h]
  apply List.map_congr_left
  intro k _
  have hfil : bindings.filter (fun b => c1 b == k) =
      bindings.filter (fun b => c2 b == k) := by
    apply List.filter_congr
    intro b hb
    rw [h b hb]
  rw [hfil]

/-- C8 (amended): the middleware sorter uses the same partition-and-sort
mechanism as the lifecycle sorter, so whenever the two classifiers agree
on every handle (and the priority lists coincide) the two sorters produce
the same (name, members) sequence; but the classifiers themselves differ —
`getMiddlewarePhase` reads only the explicit `phase` tag and performs no
marker-tag scan over the priority list — so the claimed unconditional
equivalence fails (see the counterexample). -/
theorem claim_c8_same_mechanism (mwOptions : MiddlewareOptions)
    (obsOptions : LifeCycleObserverOptions) (bindings : List Binding)
    (horder : obsOptions.groupsByOrder = mwOptions.phasesByOrder)
    (hclass : ∀ b ∈ bindings,
      getObserverGroup obsOptions b = getMiddlewarePhase b) :
    (sortMiddlewareBindingsByPhase mwOptions bindings).map
      (fun p => (p.phase, p.bindings)) =
    (sortObserverBindingsByGroup obsOptions bindings).map
      (fun g => (g.group, g.bindings)) := by
  have hmw : (sortMiddlewareBindingsByPhase mwOptions bindings).map
      (fun p => (p.phase, p.bindings)) =
      List.insertionSort (PairGroupLe mwOptions.phasesByOrder)
        (partitionByGroup getMiddlewarePhase bindings) := by
    unfold sortMiddlewareBindingsByPhase
    rw [List.map_insertionSort (PhaseLe mwOptions.phasesByOrder)
      (PairGroupLe mwOptions.phasesByOrder)
      (fun p => (p.phase, p.bindings)) _ (fun a _ b _ => Iff.rfl)]
    congr 1
    rw [List.map_map]
    have hid : ((fun q : MiddlewarePhase => (q.phase, q.bindings)) ∘
        fun p : String × List Binding => MiddlewarePhase.mk p.1 p.2) =
        id := rfl
    rw [hid, List.map_id]
  have hobs : (sortObserverBindingsByGroup obsOptions bindings).map
      (fun g => (g.group, g.bindings)) =
      List.insertionSort (PairGroupLe obsOptions.groupsByOrder)
        (partitionByGroup (getObserverGroup obsOptions) bindings) := by
    unfold sortObserverBindingsByGroup
    rw [List.map_insertionSort (ObsGroupLe obsOptions.groupsByOrder)
      (PairGroupLe obsOptions.groupsByOrder)
      (fun g => (g.group, g.bindings)) _ (fun a _ b _ => Iff.rfl)]
    congr 1
    rw [List.map_map]
    have hid : ((fun q : LifeCycleObserverGroup => (q.group, q.bindings)) ∘
        fun p : String × List Binding =>
          LifeCycleObserverGroup.mk p.1 p.2) = id := rfl
    rw [hid, List.map_id]
  rw [hmw, hobs, horder, partitionByGroup_congr hclass]

/-- C8 counterexample: a middleware binding carrying only an `auth` marker
tag (no explicit `phase` tag), with priority list `['auth']` on both
sides: the lifecycle mechanism classifies it to group `auth`, the
middleware mechanism to phase `''`, so the two sorters produce different
(name, members) sequences and the claimed equivalence under renaming
fails. -/
theorem claim_c8_counterexample :
    getMiddlewarePhase cxMarkerOnly = "" ∧
    getObserverGroup cxObsAuth cxMarkerOnly = "auth" ∧
    cxObsAuth.groupsByOrder = cxMwAuth.phasesByOrder ∧
    (sortMiddlewareBindingsByPhase cxMwAuth [cxMarkerOnly]).map
      (fun p => (p.phase, p.bindings)) ≠
    (sortObserverBindingsByGroup cxObsAuth [cxMarkerOnly]).map
      (fun g => (g.group, g.bindings)) := by
  refine ⟨by decide, by decide, by decide, by decide⟩

/-- C8 witness: a handle carrying the same name as explicit lifecycle
group tag and as explicit phase tag, where the classifiers agree and the
two sorters coincide. -/
theorem claim_c8_witness :
    (sortMiddlewareBindingsByPhase cxMwLog [cxBoth]).map
      (fun p => (p.phase, p.bindings)) =
    (sortObserverBindingsByGroup cxObsLog [cxBoth]).map
      (fun g => (g.group, g.bindings)) :=
  claim_c8_same_mechanism cxMwLog cxObsLog [cxBoth] (by decide) (by decide)

/-- C9: the router assembly is a pure function of the binding snapshot:
two invocations on the same snapshot produce the same router, whose phase
sequence is exactly the sorted phase sequence and whose mounts per phase
are the members of that phase in partition (registration) order, each with
its path scope and middleware index. -/
theorem claim_c9_router_idempotent (options : MiddlewareOptions)
    (bindings : List Binding) :
    createExpressRouter options bindings =
      createExpressRouter options bindings ∧
    (createExpressRouter options bindings).map (fun r => r.phase) =
      (sortMiddlewareBindingsByPhase options bindings).map
        (fun p => p.phase) ∧
    ∀ r ∈ createExpressRouter options bindings,
      ∃ ph ∈ sortMiddlewareBindingsByPhase options bindings,
        r.phase = ph.phase ∧
        r.mounts = ph.bindings.map
          (fun b => (pathTag b, jsIndexOfBinding bindings b)) := by
  refine ⟨rfl, ?_, ?_⟩
  · unfold createExpressRouter
    rw [List.map_map]
    rfl
  · intro r hr
    unfold createExpressRouter at hr
    rcases List.mem_map.mp hr with ⟨ph, hph, hr2⟩
    refine ⟨ph, hph, ?_, ?_⟩
    · rw [← hr2]
    · rw [← hr2]

/-- C10: with no caller-supplied options, the lifecycle registry defaults
to `parallel: true` with `groupsByOrder: ['server']` and the middleware
registry to `parallel: false` with `phasesByOrder: []`; consequently the
default lifecycle group notification is the parallel `Promise.all`
combination, and the default middleware phase order is strictly
alphabetical. -/
theorem claim_c10_defaults :
    defaultLifeCycleObserverOptions.groupsByOrder = ["server"] ∧
    defaultLifeCycleObserverOptions.parallel = some true ∧
    defaultMiddlewareOptions.phasesByOrder = [] ∧
    defaultMiddlewareOptions.parallel = some false ∧
    jsTruthy defaultLifeCycleObserverOptions.parallel = true ∧
    jsTruthy defaultMiddlewareOptions.parallel = false ∧
    (∀ (ε : Type) (outcome : Outcome ε) (group : LifeCycleObserverGroup)
      (event : EventName),
      notifyObserverGroup defaultLifeCycleObserverOptions outcome group
        event = (notifyObserverGroupSettled outcome group event).result) ∧
    (∀ bindings : List Binding,
      ((sortMiddlewareBindingsByPhase defaultMiddlewareOptions
        bindings).map (fun p => p.phase)).Pairwise (fun a b => a < b)) := by
  refine ⟨rfl, rfl, rfl, rfl, rfl, rfl, ?_, ?_⟩
  · intro ε outcome group event
    rfl
  · intro bindings
    have hp := sorted_names_pairwise_codeOrderRel
      (sortMw_names_pairwise defaultMiddlewareOptions bindings)
      (sortMw_names_nodup defaultMiddlewareOptions bindings)
    refine hp.imp ?_
    intro a b h
    refine h.2 ?_ ?_
    · intro hc
      cases hc
    · intro hc
      cases hc

end LB
